import Mathlib

set_option maxRecDepth 8000

/-!
Shallow embedding of the RAAG memory engine (`src/raag_enhanced.py`,
class `RAGMemory`) of the raag-box-classifier repository, together with
proofs settling the frozen claims about it.

Modelling conventions:
* Python dicts that hold prediction records are association lists
  `List (String × Val)` over a JSON-ish scalar type `Val`; assignment
  `d[k] = v` keeps the key's position when it exists (Python dicts
  preserve insertion order).
* Floats are modelled as rationals `ℚ`; timestamps are the ISO strings
  produced by `datetime.utcnow().isoformat()`, passed to `update_memory`
  as an explicit argument (the clock is an oracle input).
* The in-memory state `self.memory` (plus the two threshold attributes of
  the `RAGMemory` object) is the structure `RAG`; `_save_memory` /
  `_load_memory` only mirror this state to disk and are not modelled.
* Python exceptions surface as an `err` result carrying the memory state
  at the point of the raise.  The one deliberate simplification: a record
  whose `"confidence"` key holds a *string* makes CPython raise `TypeError`
  inside `_update_statistics` after some counters were already touched;
  the model reports the error with the statistics untouched.  No theorem
  below quantifies over such records.  Python booleans are numeric
  (`True == 1`), which the model follows faithfully.
-/

namespace Raag

/-- Scalar JSON-ish values stored in a prediction dict. -/
inductive Val where
  | str (s : String)
  | num (q : ℚ)
  | bool (b : Bool)
deriving DecidableEq

/-- One Python dict holding a prediction record: an insertion-ordered
association list. -/
abbrev Dict := List (String × Val)

/-- Python `d.get(k)` / `d[k]`: the value under the first (unique) binding
of `k`. -/
def lookupKey (d : Dict) (k : String) : Option Val :=
  match d with
  | [] => none
  | (k', v) :: t => if k' = k then some v else lookupKey t k

/-- Python `d[k] = v`: replaces the value in place if the key exists,
otherwise appends the binding at the end. -/
def setKey (d : Dict) (k : String) (v : Val) : Dict :=
  match d with
  | [] => [(k, v)]
  | (k', v') :: t => if k' = k then (k, v) :: t else (k', v') :: setKey t k v

/-- Confidence as `update_memory` reads it: `prediction_data.get("confidence", 0.5)`,
later compared numerically.  A missing key defaults to `0.5`; a Python bool is
numeric; a string would make the numeric comparison raise, reported as `none`. -/
def confOf (d : Dict) : Option ℚ :=
  match lookupKey d "confidence" with
  | none => some (1/2)
  | some (.num q) => some q
  | some (.bool b) => some (if b then 1 else 0)
  | some (.str _) => none

/-- Confidence as `retrieve_context` reads it for ranking:
`x.get("confidence", 0.5)`. -/
def rankConf (d : Dict) : ℚ :=
  match lookupKey d "confidence" with
  | some (.num q) => q
  | some (.bool b) => if b then 1 else 0
  | _ => 1/2

/-- Timestamp as `retrieve_context` reads it for ranking:
`x.get("timestamp", "")`. -/
def rankTs (d : Dict) : String :=
  match lookupKey d "timestamp" with
  | some (.str s) => s
  | _ => ""

/-- Statistics object of the memory blob (`memory["statistics"]`). -/
structure Stats where
  total_evaluations : ℕ
  correct_predictions : ℕ
  low_confidence_cases : ℕ
  last_accuracy : ℚ
  drift_score : ℚ
deriving DecidableEq

/-- Entry of `reinforcement_data["high_confidence_correct"]`. -/
structure HCEntry where
  prediction : Dict
  timestamp : String
  used_for_training : Bool
deriving DecidableEq

/-- Entry of `reinforcement_data["low_confidence_cases"]`. -/
structure LCEntry where
  prediction : Dict
  timestamp : String
  needs_review : Bool
deriving DecidableEq

/-- Entry of `reinforcement_data["model_improvements"]` (drift alert). -/
structure DriftEvent where
  timestamp : String
  drift_score : ℚ
deriving DecidableEq

/-- Full engine state: the two threshold attributes of the `RAGMemory`
object plus the in-memory blob `self.memory`.  The blob's top level is a
dict whose keys are the category names (mapped to record lists) together
with the three reserved keys `statistics`, `patterns`,
`reinforcement_data`. -/
structure RAG where
  confidence_threshold : ℚ
  drift_threshold : ℚ
  categories : List (String × List Dict)
  statistics : Stats
  common_damages : List (String × ℕ)
  edge_cases : List Dict
  confidence_history : List ℚ
  high_confidence_correct : List HCEntry
  low_confidence_cases : List LCEntry
  model_improvements : List DriftEvent
deriving DecidableEq

/-- Reserved top-level keys of the memory blob: these are in `self.memory`
but do not map to record lists. -/
def reservedKey (c : String) : Bool :=
  c = "statistics" || c = "patterns" || c = "reinforcement_data"

/-- Lookup of a category key in the category part of the blob. -/
def lookupCat : List (String × List Dict) → String → Option (List Dict)
  | [], _ => none
  | (c', l) :: t, c => if c' = c then some l else lookupCat t c

/-- Record list of a category, if that category key is present. -/
def getCategory (m : RAG) (c : String) : Option (List Dict) :=
  lookupCat m.categories c

/-- Fresh state written by `_initialize_memory` (plus the constructor's
threshold attributes). -/
def initialMemory (ct dt : ℚ) : RAG where
  confidence_threshold := ct
  drift_threshold := dt
  categories := [("box_condition", [])]
  statistics :=
    { total_evaluations := 0
      correct_predictions := 0
      low_confidence_cases := 0
      last_accuracy := 1
      drift_score := 0 }
  common_damages := []
  edge_cases := []
  confidence_history := []
  high_confidence_correct := []
  low_confidence_cases := []
  model_improvements := []

/-- Engine as built with the default arguments
`confidence_threshold=0.85, drift_threshold=0.3` on a fresh memory file. -/
def defaultMemory : RAG := initialMemory (85/100) (3/10)

/-- Python slice `l[-k:]`: the suffix of length `min k l.length`. -/
def lastN (k : ℕ) (l : List α) : List α := l.drop (l.length - k)

/-- Appends a freshly stamped record to its category list; creates the
category key at the end of the dict when absent
(`if category not in self.memory: self.memory[category] = []` then
`self.memory[category].append(prediction_data)`). -/
def appendToCategory : List (String × List Dict) → String → Dict → List (String × List Dict)
  | [], c, d => [(c, [d])]
  | (c', l) :: t, c, d =>
      if c' = c then (c', l ++ [d]) :: t else (c', l) :: appendToCategory t c d

/-- Method `_update_statistics`: bumps `total_evaluations`, appends the
confidence to the bounded history (last 100 kept), bumps
`low_confidence_cases` iff the confidence is below the threshold. -/
def update_statistics (m : RAG) (confidence : ℚ) : RAG :=
  let stats :=
    { m.statistics with total_evaluations := m.statistics.total_evaluations + 1 }
  let hist := m.confidence_history ++ [confidence]
  let hist := if hist.length > 100 then lastN 100 hist else hist
  let stats :=
    if confidence < m.confidence_threshold then
      { stats with low_confidence_cases := stats.low_confidence_cases + 1 }
    else stats
  { m with statistics := stats, confidence_history := hist }

/-- Method `_apply_reinforcement_learning`: threshold split into the
high-confidence bucket (capacity 100) or the low-confidence bucket
(capacity 50), appended at the tail, truncated to the last `cap` entries
when over capacity. -/
def apply_reinforcement_learning (m : RAG) (d : Dict) (ts : String) (confidence : ℚ) : RAG :=
  if m.confidence_threshold ≤ confidence then
    let hc := m.high_confidence_correct ++
      [{ prediction := d, timestamp := ts, used_for_training := false }]
    let hc := if hc.length > 100 then lastN 100 hc else hc
    { m with high_confidence_correct := hc }
  else
    let lc := m.low_confidence_cases ++
      [{ prediction := d, timestamp := ts, needs_review := true }]
    let lc := if lc.length > 50 then lastN 50 lc else lc
    { m with low_confidence_cases := lc }

/-- Method `_detect_drift`: a no-op below 10 evaluations; otherwise stores
`low_confidence_cases / total_evaluations` into `drift_score` and, above
the drift threshold, logs a drift event (`_log_drift_alert`). -/
def detect_drift (m : RAG) (ts : String) : RAG :=
  let total := m.statistics.total_evaluations
  if total < 10 then m
  else
    let rate : ℚ := (m.statistics.low_confidence_cases : ℚ) / (total : ℚ)
    let m' := { m with statistics := { m.statistics with drift_score := rate } }
    if m'.drift_threshold < rate then
      { m' with model_improvements :=
          m'.model_improvements ++ [{ timestamp := ts, drift_score := rate }] }
    else m'

/-- Result of one `update_memory` call: `ok` carries the new memory state
and the caller's dict as mutated in place; `err` models a raised Python
exception, carrying the memory state at the raise and the (already
stamped) caller dict. -/
inductive UpdateResult where
  | ok (m : RAG) (d : Dict)
  | err (msg : String) (m : RAG) (d : Dict)
deriving DecidableEq

/-- Method `update_memory`: stamps `prediction_data["timestamp"]` (mutating
the caller's dict), appends the record to the category log, then runs
`_update_statistics`, `_apply_reinforcement_learning`, `_detect_drift` and
saves.  Passing a reserved key as `category` finds a dict (not a list)
under `self.memory[category]` and raises `AttributeError` on `.append`,
before any mutation of the blob. -/
def update_memory (m : RAG) (category : String) (ts : String) (prediction_data : Dict) :
    UpdateResult :=
  let d := setKey prediction_data "timestamp" (.str ts)
  if reservedKey category then .err "AttributeError" m d
  else
    match confOf d with
    | none => .err "TypeError" { m with categories := appendToCategory m.categories category d } d
    | some confidence =>
        let m := { m with categories := appendToCategory m.categories category d }
        let m := update_statistics m confidence
        let m := apply_reinforcement_learning m d ts confidence
        let m := detect_drift m ts
        .ok m d

/-- Ranking key of `retrieve_context`:
`(x.get("confidence", 0.5), x.get("timestamp", ""))`. -/
def rankKey (d : Dict) : ℚ × String := (rankConf d, rankTs d)

/-- Ordering produced by `sorted(..., key=rankKey, reverse=True)`:
`a` sorts no later than `b` iff the key of `a` is lexicographically at
least the key of `b` (confidence first, then timestamp). -/
def rankGE (a b : Dict) : Prop :=
  (rankKey b).1 < (rankKey a).1 ∨
    ((rankKey a).1 = (rankKey b).1 ∧ (rankKey b).2 ≤ (rankKey a).2)

instance : DecidableRel rankGE := fun a b => by
  unfold rankGE
  exact instDecidableOr

/-- Result of one `retrieve_context` call: the returned list, or a raised
Python exception. -/
inductive Retrieved where
  | ok (items : List Dict)
  | error (msg : String)
deriving DecidableEq

/-- Method `retrieve_context`: empty list for a category key that is not in
the blob; for a stored category, the last 20 records sorted by
`(confidence, timestamp)` descending, first `n` returned.  A reserved key
is in the blob but holds a dict, and `examples[-20:]` on a dict raises
`TypeError`. -/
def retrieve_context (m : RAG) (category : String) (n : ℕ) : Retrieved :=
  if reservedKey category then .error "TypeError: unhashable type: slice"
  else
    match getCategory m category with
    | none => .ok []
    | some examples => .ok (((lastN 20 examples).insertionSort rankGE).take n)

/-- Loop of `mark_as_used_for_training`:
`for item in high_conf[:n]: item["used_for_training"] = True` — the entries
are mutated in place, so the first `min n length` entries of the bucket
get the flag. -/
def markUsed : ℕ → List HCEntry → List HCEntry
  | 0, l => l
  | _ + 1, [] => []
  | n + 1, e :: t => { e with used_for_training := true } :: markUsed n t

/-- Method `mark_as_used_for_training`. -/
def mark_as_used_for_training (m : RAG) (n_samples : ℕ) : RAG :=
  { m with high_confidence_correct := markUsed n_samples m.high_confidence_correct }

/-- Method `get_training_dataset`: predictions of the high-confidence
entries not yet used for training, in bucket (insertion) order. -/
def get_training_dataset (m : RAG) : List Dict :=
  (m.high_confidence_correct.filter (fun e => !e.used_for_training)).map HCEntry.prediction

/-- Assistant payload of one exported JSONL line: the fields
`status/reason/confidence` that `export_for_finetuning` serializes
(`item.get("result")`, `item.get("reason", "")`,
`item.get("confidence", 0.5)`). -/
structure TrainingLine where
  result : Option Val
  reason : Val
  confidence : Val
deriving DecidableEq

/-- Serialization of one training record into its JSONL line payload. -/
def trainingLine (item : Dict) : TrainingLine where
  result := lookupKey item "result"
  reason := (lookupKey item "reason").getD (.str "")
  confidence := (lookupKey item "confidence").getD (.num (1/2))

/-- Method `export_for_finetuning`: writes one line per unconsumed
high-confidence record and returns; it only reads the memory, so the model
returns the written lines together with the unchanged state. -/
def export_for_finetuning (m : RAG) : List TrainingLine × RAG :=
  ((get_training_dataset m).map trainingLine, m)

/-- Arguments of one `update_memory` call: the category, the timestamp the
engine stamps, and the caller's outcome dict. -/
structure UpdateInput where
  category : String
  ts : String
  outcome : Dict
deriving DecidableEq

/-- Memory state held by the engine object after a call, whether or not
the call raised. -/
def stateOf : UpdateResult → RAG
  | .ok m _ => m
  | .err _ m _ => m

/-- Runs a sequence of `update_memory` calls; the caller catches any
exception and the engine object keeps the state it had at the raise. -/
def runUpdates (m : RAG) (inputs : List UpdateInput) : RAG :=
  inputs.foldl (fun s i => stateOf (update_memory s i.category i.ts i.outcome)) m

/-- Record as stored for input `i`: the caller's dict with the engine's
timestamp stamped in. -/
def entryOf (i : UpdateInput) : Dict := setKey i.outcome "timestamp" (.str i.ts)

/-- Inputs on which `update_memory` completes without raising: a
non-reserved category and a numeric (or absent) confidence. -/
def validInput (i : UpdateInput) : Bool :=
  !reservedKey i.category && (confOf (entryOf i)).isSome

/-- Confidence value the engine extracts for input `i` (junk on invalid
inputs, which no theorem uses). -/
def confV (i : UpdateInput) : ℚ := (confOf (entryOf i)).getD 0

/-- Whether an `update_memory` call returned normally. -/
def isOk : UpdateResult → Bool
  | .ok _ _ => true
  | .err _ _ _ => false

/-- Ghost list of every entry ever appended to the high-confidence bucket
over a run with threshold `ct` (no eviction applied).  The bucket itself
is always the 100-suffix of this list. -/
def highEntriesOf (ct : ℚ) (inputs : List UpdateInput) : List HCEntry :=
  inputs.filterMap fun i =>
    if validInput i = true ∧ ct ≤ confV i then
      some { prediction := entryOf i, timestamp := i.ts, used_for_training := false }
    else none

/-- Ghost list of every entry ever appended to the low-confidence bucket
over a run with threshold `ct`. -/
def lowEntriesOf (ct : ℚ) (inputs : List UpdateInput) : List LCEntry :=
  inputs.filterMap fun i =>
    if validInput i = true ∧ confV i < ct then
      some { prediction := entryOf i, timestamp := i.ts, needs_review := true }
    else none

/-- Ghost list of every confidence ever appended to the history over a
run. -/
def confsOf (inputs : List UpdateInput) : List ℚ :=
  inputs.filterMap fun i =>
    if validInput i = true then some (confV i) else none

/-- Concrete inputs: two box_condition records and one new category, all
with well-formed categories and confidences. -/
def threeInputs : List UpdateInput :=
  [{ category := "box_condition", ts := "2024-01-01T00:00:00",
     outcome := [("confidence", .num (9/10)), ("result", .str "OK")] },
   { category := "box_condition", ts := "2024-01-01T00:00:01",
     outcome := [("confidence", .num (1/2))] },
   { category := "damage", ts := "2024-01-01T00:00:02", outcome := [] }]

/-- Concrete input whose category is the reserved key `"statistics"`. -/
def statInput : UpdateInput := { category := "statistics", ts := "t0", outcome := [] }

/-- Ten concrete low-confidence updates. -/
def tenLowInputs : List UpdateInput :=
  (List.range 10).map fun j =>
    { category := "box_condition", ts := toString j,
      outcome := [("confidence", .num (1/10))] }

/-- Concrete state with two high-confidence bucket entries of which the
first was already consumed by `mark_as_used_for_training 1`. -/
def markedOnce : RAG :=
  mark_as_used_for_training
    (runUpdates defaultMemory
      [{ category := "box_condition", ts := "t1",
         outcome := [("confidence", .num (9/10)), ("result", .str "OK")] },
       { category := "box_condition", ts := "t2",
         outcome := [("confidence", .num (19/20)), ("result", .str "OK")] }]) 1

/-- Concrete state with three stored box_condition records of mixed
confidence. -/
def retrState : RAG :=
  runUpdates defaultMemory
    [{ category := "box_condition", ts := "a", outcome := [("confidence", .num (1/2))] },
     { category := "box_condition", ts := "b", outcome := [("confidence", .num (9/10))] },
     { category := "box_condition", ts := "c", outcome := [("confidence", .num (1/2))] }]

/-- Record log stored under box_condition in `retrState`. -/
def retrLog : List Dict :=
  [[("confidence", .num (1/2)), ("timestamp", .str "a")],
   [("confidence", .num (9/10)), ("timestamp", .str "b")],
   [("confidence", .num (1/2)), ("timestamp", .str "c")]]

/-- Concrete input whose confidence 1.5 lies outside the unit interval. -/
def oorInput : UpdateInput :=
  { category := "box_condition", ts := "t0", outcome := [("confidence", .num (3/2))] }

/-- Concrete input whose outcome dict has no confidence key. -/
def noConfInput : UpdateInput :=
  { category := "box_condition", ts := "t9", outcome := [("result", .str "OK")] }

/-- Concrete input with several keys beside the timestamp the engine adds. -/
def aliasInput : UpdateInput :=
  { category := "box_condition", ts := "2024-05-05T12:00:00",
    outcome := [("result", .str "OK"), ("confidence", .num (9/10)),
                ("reason", .str "clean box")] }

theorem lastN_of_le {α : Type} {k : ℕ} {l : List α} (h : l.length ≤ k) : lastN k l = l := by
  unfold lastN
  rw [Nat.sub_eq_zero_of_le h, List.drop_zero]

theorem length_lastN {α : Type} (k : ℕ) (l : List α) : (lastN k l).length = min k l.length := by
  unfold lastN
  rw [List.length_drop]
  omega

theorem length_lastN_le {α : Type} (k : ℕ) (l : List α) : (lastN k l).length ≤ k := by
  rw [length_lastN]
  omega

theorem trunc_eq_lastN {α : Type} (k : ℕ) (l : List α) :
    (if l.length > k then lastN k l else l) = lastN k l := by
  split
  · rfl
  · next h => exact (lastN_of_le (by omega)).symm

theorem lastN_reverse_take {α : Type} (k : ℕ) (l : List α) :
    lastN k l = (l.reverse.take k).reverse := by
  unfold lastN
  rw [List.take_reverse, List.reverse_reverse]

theorem lastN_append {α : Type} (k : ℕ) (l t : List α) :
    lastN k (lastN k l ++ t) = lastN k (l ++ t) := by
  simp only [lastN_reverse_take, List.reverse_append, List.reverse_reverse,
    List.take_append_eq_append_take, List.take_take, List.length_reverse]
  rw [inf_of_le_left (Nat.sub_le k t.length)]

theorem mem_lastN {α : Type} {x : α} {k : ℕ} {l : List α} (h : x ∈ lastN k l) : x ∈ l :=
  List.Sublist.mem h (List.drop_sublist _ _)

theorem lookupKey_setKey_self (d : Dict) (k : String) (v : Val) :
    lookupKey (setKey d k v) k = some v := by
  induction d with
  | nil => simp [setKey, lookupKey]
  | cons p t ih =>
      obtain ⟨a, b⟩ := p
      by_cases h : a = k
      · simp [setKey, lookupKey, h]
      · simp [setKey, lookupKey, h, ih]

theorem lookupKey_setKey_ne (d : Dict) {k k' : String} (v : Val) (h : k' ≠ k) :
    lookupKey (setKey d k v) k' = lookupKey d k' := by
  have h2 : ¬ k = k' := fun e => h e.symm
  induction d with
  | nil => simp [setKey, lookupKey, h2]
  | cons p t ih =>
      obtain ⟨a, b⟩ := p
      by_cases ha : a = k
      · subst ha
        simp [setKey, lookupKey, h2]
      · by_cases ha' : a = k'
        · subst ha'
          simp [setKey, lookupKey, ha, h]
        · simp [setKey, lookupKey, ha, ha', ih]

instance : IsTotal Dict rankGE where
  total a b := by
    unfold rankGE
    rcases lt_trichotomy (rankKey a).1 (rankKey b).1 with h | h | h
    · exact Or.inr (Or.inl h)
    · rcases le_total (rankKey b).2 (rankKey a).2 with h2 | h2
      · exact Or.inl (Or.inr ⟨h, h2⟩)
      · exact Or.inr (Or.inr ⟨h.symm, h2⟩)
    · exact Or.inl (Or.inl h)

instance : IsTrans Dict rankGE where
  trans a b c hab hbc := by
    unfold rankGE at *
    rcases hab with h1 | ⟨h1, h1'⟩ <;> rcases hbc with h2 | ⟨h2, h2'⟩
    · exact Or.inl (h2.trans h1)
    · exact Or.inl (by rw [← h2]; exact h1)
    · exact Or.inl (by rw [h1]; exact h2)
    · exact Or.inr ⟨h1.trans h2, h2'.trans h1'⟩

theorem markUsed_length (n : ℕ) (l : List HCEntry) : (markUsed n l).length = l.length := by
  induction l generalizing n with
  | nil => cases n <;> rfl
  | cons e t ih =>
      cases n with
      | zero => rfl
      | succ n => simp [markUsed, ih]

theorem markUsed_get? (n : ℕ) (l : List HCEntry) (i : ℕ) :
    (markUsed n l)[i]? =
      (l[i]?).map (fun e => if i < n then { e with used_for_training := true } else e) := by
  induction l generalizing n i with
  | nil =>
      cases n <;> simp [markUsed]
  | cons e t ih =>
      cases n with
      | zero => simp [markUsed]
      | succ n =>
          cases i with
          | zero => simp [markUsed]
          | succ i => simp [markUsed, ih, Nat.succ_lt_succ_iff]

theorem markUsed_idem (n : ℕ) (l : List HCEntry) :
    markUsed n (markUsed n l) = markUsed n l := by
  induction l generalizing n with
  | nil => cases n <;> rfl
  | cons e t ih =>
      cases n with
      | zero => rfl
      | succ n => simp [markUsed, ih]

theorem us_threshold (m : RAG) (c : ℚ) :
    (update_statistics m c).confidence_threshold = m.confidence_threshold := rfl

theorem us_drift_threshold (m : RAG) (c : ℚ) :
    (update_statistics m c).drift_threshold = m.drift_threshold := rfl

theorem us_categories (m : RAG) (c : ℚ) :
    (update_statistics m c).categories = m.categories := rfl

theorem us_high (m : RAG) (c : ℚ) :
    (update_statistics m c).high_confidence_correct = m.high_confidence_correct := rfl

theorem us_low_bucket (m : RAG) (c : ℚ) :
    (update_statistics m c).low_confidence_cases = m.low_confidence_cases := rfl

theorem us_total (m : RAG) (c : ℚ) :
    (update_statistics m c).statistics.total_evaluations
      = m.statistics.total_evaluations + 1 := by
  simp only [update_statistics]
  split <;> rfl

theorem us_low_cases (m : RAG) (c : ℚ) :
    (update_statistics m c).statistics.low_confidence_cases
      = if c < m.confidence_threshold then m.statistics.low_confidence_cases + 1
        else m.statistics.low_confidence_cases := by
  simp only [update_statistics]
  split <;> rfl

theorem us_drift (m : RAG) (c : ℚ) :
    (update_statistics m c).statistics.drift_score = m.statistics.drift_score := by
  simp only [update_statistics]
  split <;> rfl

theorem us_history (m : RAG) (c : ℚ) :
    (update_statistics m c).confidence_history
      = lastN 100 (m.confidence_history ++ [c]) := by
  simp only [update_statistics]
  exact trunc_eq_lastN 100 _

theorem arl_threshold (m : RAG) (d : Dict) (ts : String) (c : ℚ) :
    (apply_reinforcement_learning m d ts c).confidence_threshold
      = m.confidence_threshold := by
  simp only [apply_reinforcement_learning]
  split <;> rfl

theorem arl_drift_threshold (m : RAG) (d : Dict) (ts : String) (c : ℚ) :
    (apply_reinforcement_learning m d ts c).drift_threshold = m.drift_threshold := by
  simp only [apply_reinforcement_learning]
  split <;> rfl

theorem arl_categories (m : RAG) (d : Dict) (ts : String) (c : ℚ) :
    (apply_reinforcement_learning m d ts c).categories = m.categories := by
  simp only [apply_reinforcement_learning]
  split <;> rfl

theorem arl_statistics (m : RAG) (d : Dict) (ts : String) (c : ℚ) :
    (apply_reinforcement_learning m d ts c).statistics = m.statistics := by
  simp only [apply_reinforcement_learning]
  split <;> rfl

theorem arl_history (m : RAG) (d : Dict) (ts : String) (c : ℚ) :
    (apply_reinforcement_learning m d ts c).confidence_history
      = m.confidence_history := by
  simp only [apply_reinforcement_learning]
  split <;> rfl

theorem arl_high_pos (m : RAG) (d : Dict) (ts : String) (c : ℚ)
    (h : m.confidence_threshold ≤ c) :
    (apply_reinforcement_learning m d ts c).high_confidence_correct
      = lastN 100 (m.high_confidence_correct ++
          [{ prediction := d, timestamp := ts, used_for_training := false }]) := by
  simp only [apply_reinforcement_learning, if_pos h]
  exact trunc_eq_lastN 100 _

theorem arl_low_pos_high (m : RAG) (d : Dict) (ts : String) (c : ℚ)
    (h : m.confidence_threshold ≤ c) :
    (apply_reinforcement_learning m d ts c).low_confidence_cases
      = m.low_confidence_cases := by
  simp only [apply_reinforcement_learning, if_pos h]

theorem arl_low_pos (m : RAG) (d : Dict) (ts : String) (c : ℚ)
    (h : ¬ m.confidence_threshold ≤ c) :
    (apply_reinforcement_learning m d ts c).low_confidence_cases
      = lastN 50 (m.low_confidence_cases ++
          [{ prediction := d, timestamp := ts, needs_review := true }]) := by
  simp only [apply_reinforcement_learning, if_neg h]
  exact trunc_eq_lastN 50 _

theorem arl_high_neg (m : RAG) (d : Dict) (ts : String) (c : ℚ)
    (h : ¬ m.confidence_threshold ≤ c) :
    (apply_reinforcement_learning m d ts c).high_confidence_correct
      = m.high_confidence_correct := by
  simp only [apply_reinforcement_learning, if_neg h]

theorem dd_threshold (m : RAG) (ts : String) :
    (detect_drift m ts).confidence_threshold = m.confidence_threshold := by
  simp only [detect_drift]
  split
  · rfl
  · split <;> rfl

theorem dd_categories (m : RAG) (ts : String) :
    (detect_drift m ts).categories = m.categories := by
  simp only [detect_drift]
  split
  · rfl
  · split <;> rfl

theorem dd_high (m : RAG) (ts : String) :
    (detect_drift m ts).high_confidence_correct = m.high_confidence_correct := by
  simp only [detect_drift]
  split
  · rfl
  · split <;> rfl

theorem dd_low_bucket (m : RAG) (ts : String) :
    (detect_drift m ts).low_confidence_cases = m.low_confidence_cases := by
  simp only [detect_drift]
  split
  · rfl
  · split <;> rfl

theorem dd_history (m : RAG) (ts : String) :
    (detect_drift m ts).confidence_history = m.confidence_history := by
  simp only [detect_drift]
  split
  · rfl
  · split <;> rfl

theorem dd_total (m : RAG) (ts : String) :
    (detect_drift m ts).statistics.total_evaluations
      = m.statistics.total_evaluations := by
  simp only [detect_drift]
  split
  · rfl
  · split <;> rfl

theorem dd_low_cases (m : RAG) (ts : String) :
    (detect_drift m ts).statistics.low_confidence_cases
      = m.statistics.low_confidence_cases := by
  simp only [detect_drift]
  split
  · rfl
  · split <;> rfl

theorem dd_of_lt (m : RAG) (ts : String) (h : m.statistics.total_evaluations < 10) :
    detect_drift m ts = m := by
  simp only [detect_drift, if_pos h]

theorem dd_drift_ge (m : RAG) (ts : String) (h : ¬ m.statistics.total_evaluations < 10) :
    (detect_drift m ts).statistics.drift_score
      = (m.statistics.low_confidence_cases : ℚ) / (m.statistics.total_evaluations : ℚ) := by
  simp only [detect_drift, if_neg h]
  split <;> rfl

theorem update_memory_valid_eq (m : RAG) (i : UpdateInput) (hv : validInput i = true) :
    update_memory m i.category i.ts i.outcome =
      .ok (detect_drift
             (apply_reinforcement_learning
               (update_statistics
                 { m with categories := appendToCategory m.categories i.category (entryOf i) }
                 (confV i))
               (entryOf i) i.ts (confV i))
             i.ts)
          (entryOf i) := by
  rw [validInput, Bool.and_eq_true] at hv
  obtain ⟨h1, h2⟩ := hv
  rw [Bool.not_eq_true'] at h1
  obtain ⟨q, hq⟩ := Option.isSome_iff_exists.mp h2
  have hcv : confV i = q := by rw [confV, hq]; rfl
  rw [entryOf] at hq
  simp only [update_memory, h1, Bool.false_eq_true, if_false, hq, hcv, entryOf]

theorem runUpdates_nil (m : RAG) : runUpdates m [] = m := rfl

theorem runUpdates_cons (m : RAG) (i : UpdateInput) (t : List UpdateInput) :
    runUpdates m (i :: t)
      = runUpdates (stateOf (update_memory m i.category i.ts i.outcome)) t := rfl

theorem total_run (inputs : List UpdateInput) : ∀ (m : RAG),
    (∀ i ∈ inputs, validInput i = true) →
    (runUpdates m inputs).statistics.total_evaluations
      = m.statistics.total_evaluations + inputs.length := by
  induction inputs with
  | nil =>
      intro m _
      rw [runUpdates_nil]
      rfl
  | cons i t ih =>
      intro m h
      rw [runUpdates_cons, update_memory_valid_eq m i (h i (List.mem_cons_self i t))]
      simp only [stateOf]
      rw [ih _ (fun j hj => h j (List.mem_cons_of_mem i hj))]
      rw [dd_total, arl_statistics, us_total]
      simp only [List.length_cons]
      show m.statistics.total_evaluations + 1 + t.length
    = m.statistics.total_evaluations + (t.length + 1)
      omega

theorem drift_run (inputs : List UpdateInput) : ∀ (m : RAG),
    (∀ i ∈ inputs, validInput i = true) →
    (10 ≤ m.statistics.total_evaluations →
        m.statistics.drift_score
          = (m.statistics.low_confidence_cases : ℚ) / (m.statistics.total_evaluations : ℚ)) →
    (m.statistics.total_evaluations < 10 → m.statistics.drift_score = 0) →
    (10 ≤ (runUpdates m inputs).statistics.total_evaluations →
        (runUpdates m inputs).statistics.drift_score
          = ((runUpdates m inputs).statistics.low_confidence_cases : ℚ)
              / ((runUpdates m inputs).statistics.total_evaluations : ℚ)) ∧
      ((runUpdates m inputs).statistics.total_evaluations < 10 →
        (runUpdates m inputs).statistics.drift_score = 0) := by
  induction inputs with
  | nil =>
      intro m _ h1 h2
      rw [runUpdates_nil]
      exact ⟨h1, h2⟩
  | cons i t ih =>
      intro m h h1 h2
      rw [runUpdates_cons, update_memory_valid_eq m i (h i (List.mem_cons_self i t))]
      simp only [stateOf]
      have hBtot :
          (apply_reinforcement_learning
              (update_statistics
                { m with categories := appendToCategory m.categories i.category (entryOf i) }
                (confV i)) (entryOf i) i.ts (confV i)).statistics.total_evaluations
            = m.statistics.total_evaluations + 1 := by
        rw [arl_statistics, us_total]
      by_cases hc :
          (apply_reinforcement_learning
              (update_statistics
                { m with categories := appendToCategory m.categories i.category (entryOf i) }
                (confV i)) (entryOf i) i.ts (confV i)).statistics.total_evaluations < 10
      · rw [dd_of_lt _ _ hc]
        apply ih _ (fun j hj => h j (List.mem_cons_of_mem i hj))
        · intro hge
          omega
        · intro _
          rw [arl_statistics, us_drift]
          exact h2 (by omega)
      · apply ih _ (fun j hj => h j (List.mem_cons_of_mem i hj))
        · intro _
          rw [dd_drift_ge _ _ hc, dd_total, dd_low_cases]
        · intro hlt
          rw [dd_total] at hlt
          omega

theorem step_threshold (m : RAG) (i : UpdateInput) (hv : validInput i = true) :
    (stateOf (update_memory m i.category i.ts i.outcome)).confidence_threshold
      = m.confidence_threshold := by
  rw [update_memory_valid_eq m i hv]
  simp only [stateOf]
  rw [dd_threshold, arl_threshold, us_threshold]

theorem step_history (m : RAG) (i : UpdateInput) (hv : validInput i = true) :
    (stateOf (update_memory m i.category i.ts i.outcome)).confidence_history
      = lastN 100 (m.confidence_history ++ [confV i]) := by
  rw [update_memory_valid_eq m i hv]
  simp only [stateOf]
  rw [dd_history, arl_history, us_history]

theorem step_high_pos (m : RAG) (i : UpdateInput) (hv : validInput i = true)
    (hq : m.confidence_threshold ≤ confV i) :
    (stateOf (update_memory m i.category i.ts i.outcome)).high_confidence_correct
      = lastN 100 (m.high_confidence_correct ++
          [{ prediction := entryOf i, timestamp := i.ts, used_for_training := false }]) := by
  rw [update_memory_valid_eq m i hv]
  simp only [stateOf]
  rw [dd_high, arl_high_pos _ _ _ _ (by rw [us_threshold]; exact hq)]
  rfl

theorem step_low_pos_high (m : RAG) (i : UpdateInput) (hv : validInput i = true)
    (hq : m.confidence_threshold ≤ confV i) :
    (stateOf (update_memory m i.category i.ts i.outcome)).low_confidence_cases
      = m.low_confidence_cases := by
  rw [update_memory_valid_eq m i hv]
  simp only [stateOf]
  rw [dd_low_bucket, arl_low_pos_high _ _ _ _ (by rw [us_threshold]; exact hq)]
  rfl

theorem step_high_neg (m : RAG) (i : UpdateInput) (hv : validInput i = true)
    (hq : ¬ m.confidence_threshold ≤ confV i) :
    (stateOf (update_memory m i.category i.ts i.outcome)).high_confidence_correct
      = m.high_confidence_correct := by
  rw [update_memory_valid_eq m i hv]
  simp only [stateOf]
  rw [dd_high, arl_high_neg _ _ _ _ (by rw [us_threshold]; exact hq)]
  rfl

theorem step_low_neg (m : RAG) (i : UpdateInput) (hv : validInput i = true)
    (hq : ¬ m.confidence_threshold ≤ confV i) :
    (stateOf (update_memory m i.category i.ts i.outcome)).low_confidence_cases
      = lastN 50 (m.low_confidence_cases ++
          [{ prediction := entryOf i, timestamp := i.ts, needs_review := true }]) := by
  rw [update_memory_valid_eq m i hv]
  simp only [stateOf]
  rw [dd_low_bucket, arl_low_pos _ _ _ _ (by rw [us_threshold]; exact hq)]
  rfl

theorem buckets_run (ct : ℚ) (inputs : List UpdateInput) : ∀ (m : RAG)
    (H : List HCEntry) (L : List LCEntry) (C : List ℚ),
    m.confidence_threshold = ct →
    (∀ i ∈ inputs, validInput i = true) →
    m.high_confidence_correct = lastN 100 H →
    m.low_confidence_cases = lastN 50 L →
    m.confidence_history = lastN 100 C →
    (runUpdates m inputs).high_confidence_correct
        = lastN 100 (H ++ highEntriesOf ct inputs) ∧
      (runUpdates m inputs).low_confidence_cases
        = lastN 50 (L ++ lowEntriesOf ct inputs) ∧
      (runUpdates m inputs).confidence_history
        = lastN 100 (C ++ confsOf inputs) := by
  induction inputs with
  | nil =>
      intro m H L C _ _ hH hL hC
      rw [runUpdates_nil]
      simp only [highEntriesOf, lowEntriesOf, confsOf, List.filterMap_nil, List.append_nil]
      exact ⟨hH, hL, hC⟩
  | cons i t ih =>
      intro m H L C hct h hH hL hC
      have hv := h i (List.mem_cons_self i t)
      have ht := fun j hj => h j (List.mem_cons_of_mem i hj)
      rw [runUpdates_cons]
      by_cases hq : ct ≤ confV i
      · have hcons :
            highEntriesOf ct (i :: t)
              = { prediction := entryOf i, timestamp := i.ts, used_for_training := false }
                  :: highEntriesOf ct t := by
          simp only [highEntriesOf, List.filterMap_cons, if_pos (And.intro hv hq)]
        have lcons : lowEntriesOf ct (i :: t) = lowEntriesOf ct t := by
          have hn : ¬ (validInput i = true ∧ confV i < ct) := fun hcon =>
            absurd hq (not_le.mpr hcon.2)
          simp only [lowEntriesOf, List.filterMap_cons, if_neg hn]
        have ccons : confsOf (i :: t) = confV i :: confsOf t := by
          simp only [confsOf, List.filterMap_cons, if_pos hv]
        rw [hcons, lcons, ccons]
        have hstep := ih (stateOf (update_memory m i.category i.ts i.outcome))
          (H ++ [{ prediction := entryOf i, timestamp := i.ts, used_for_training := false }])
          L (C ++ [confV i])
          (by rw [step_threshold m i hv]; exact hct)
          ht
          (by rw [step_high_pos m i hv (by rw [hct]; exact hq), hH, lastN_append])
          (by rw [step_low_pos_high m i hv (by rw [hct]; exact hq)]; exact hL)
          (by rw [step_history m i hv, hC, lastN_append])
        refine ⟨?_, hstep.2.1, ?_⟩
        · rw [hstep.1]
          congr 1
          simp
        · rw [hstep.2.2]
          congr 1
          simp
      · have hcons : highEntriesOf ct (i :: t) = highEntriesOf ct t := by
          have hn : ¬ (validInput i = true ∧ ct ≤ confV i) := fun hcon => absurd hcon.2 hq
          simp only [highEntriesOf, List.filterMap_cons, if_neg hn]
        have lcons :
            lowEntriesOf ct (i :: t)
              = { prediction := entryOf i, timestamp := i.ts, needs_review := true }
                  :: lowEntriesOf ct t := by
          simp only [lowEntriesOf, List.filterMap_cons,
            if_pos (And.intro hv (not_le.mp hq))]
        have ccons : confsOf (i :: t) = confV i :: confsOf t := by
          simp only [confsOf, List.filterMap_cons, if_pos hv]
        rw [hcons, lcons, ccons]
        have hstep := ih (stateOf (update_memory m i.category i.ts i.outcome))
          H
          (L ++ [{ prediction := entryOf i, timestamp := i.ts, needs_review := true }])
          (C ++ [confV i])
          (by rw [step_threshold m i hv]; exact hct)
          ht
          (by rw [step_high_neg m i hv (by rw [hct]; exact hq)]; exact hH)
          (by rw [step_low_neg m i hv (by rw [hct]; exact hq), hL, lastN_append])
          (by rw [step_history m i hv, hC, lastN_append])
        refine ⟨hstep.1, ?_, ?_⟩
        · rw [hstep.2.1]
          congr 1
          simp
        · rw [hstep.2.2]
          congr 1
          simp

theorem lookupCat_append_self (cats : List (String × List Dict)) (c : String) (d : Dict) :
    lookupCat (appendToCategory cats c d) c
      = some ((lookupCat cats c).getD [] ++ [d]) := by
  induction cats with
  | nil => simp [appendToCategory, lookupCat]
  | cons p t ih =>
      obtain ⟨a, l⟩ := p
      by_cases h : a = c
      · simp [appendToCategory, lookupCat, h]
      · simp [appendToCategory, lookupCat, h, ih]

theorem step_categories (m : RAG) (i : UpdateInput) (hv : validInput i = true) :
    (stateOf (update_memory m i.category i.ts i.outcome)).categories
      = appendToCategory m.categories i.category (entryOf i) := by
  rw [update_memory_valid_eq m i hv]
  simp only [stateOf]
  rw [dd_categories, arl_categories, us_categories]

theorem step_low_cases (m : RAG) (i : UpdateInput) (hv : validInput i = true) :
    (stateOf (update_memory m i.category i.ts i.outcome)).statistics.low_confidence_cases
      = if confV i < m.confidence_threshold then m.statistics.low_confidence_cases + 1
        else m.statistics.low_confidence_cases := by
  rw [update_memory_valid_eq m i hv]
  simp only [stateOf]
  rw [dd_low_cases, arl_statistics, us_low_cases]

theorem step_isOk (m : RAG) (i : UpdateInput) (hv : validInput i = true) :
    isOk (update_memory m i.category i.ts i.outcome) = true := by
  rw [update_memory_valid_eq m i hv]
  rfl

/-- C1, counterexample: a single `update_memory` call whose category is the
reserved key `"statistics"` raises (AttributeError on `dict.append`) and
leaves `total_evaluations` at 0, so after this sequence of N = 1 calls the
counter is 0, not 1 — the claim is not category-independent. -/
theorem update_reserved_category_not_counted :
    isOk (update_memory defaultMemory statInput.category statInput.ts statInput.outcome)
        = false ∧
      (runUpdates defaultMemory [statInput]).statistics.total_evaluations = 0 := by
  with_unfolding_all decide

/-- C1 (amended): from a freshly initialized engine, every `update_memory`
call that completes without raising increments `total_evaluations` by
exactly one, so after N completed calls the counter equals N, regardless
of the (non-reserved) categories and of the confidences passed. -/
theorem total_evaluations_counts_completed_calls (ct dt : ℚ)
    (inputs : List UpdateInput) (h : ∀ i ∈ inputs, validInput i = true) :
    (runUpdates (initialMemory ct dt) inputs).statistics.total_evaluations
      = inputs.length := by
  rw [total_run inputs (initialMemory ct dt) h]
  show 0 + inputs.length = inputs.length
  omega

/-- C1, witness: three completed calls (two categories, mixed and missing
confidences) leave the counter at 3. -/
theorem total_evaluations_counts_completed_calls_witness :
    (∀ i ∈ threeInputs, validInput i = true) ∧
      (runUpdates (initialMemory (85/100) (3/10)) threeInputs).statistics.total_evaluations
        = 3 :=
  ⟨by with_unfolding_all decide,
   by rw [total_evaluations_counts_completed_calls (85/100) (3/10) threeInputs
        (by with_unfolding_all decide)]; rfl⟩

/-- C2: after any sequence of completed `update_memory` calls from a fresh
engine, the high-confidence bucket is exactly the 100-suffix of the full
insertion sequence of qualifying entries, the low-confidence bucket the
50-suffix of its insertion sequence, and the confidence history the
100-suffix of all appended confidences — so each is bounded (≤ 100 / ≤ 50
/ ≤ 100), eviction drops oldest-inserted entries first, and survivors keep
insertion order. -/
theorem bucket_bounds_and_fifo (ct dt : ℚ) (inputs : List UpdateInput)
    (h : ∀ i ∈ inputs, validInput i = true) :
    (runUpdates (initialMemory ct dt) inputs).high_confidence_correct
        = lastN 100 (highEntriesOf ct inputs) ∧
      (runUpdates (initialMemory ct dt) inputs).low_confidence_cases
        = lastN 50 (lowEntriesOf ct inputs) ∧
      (runUpdates (initialMemory ct dt) inputs).confidence_history
        = lastN 100 (confsOf inputs) ∧
      (runUpdates (initialMemory ct dt) inputs).high_confidence_correct.length ≤ 100 ∧
      (runUpdates (initialMemory ct dt) inputs).low_confidence_cases.length ≤ 50 ∧
      (runUpdates (initialMemory ct dt) inputs).confidence_history.length ≤ 100 := by
  have hrun := buckets_run ct inputs (initialMemory ct dt) [] [] [] rfl h rfl rfl rfl
  simp only [List.nil_append] at hrun
  refine ⟨hrun.1, hrun.2.1, hrun.2.2, ?_, ?_, ?_⟩
  · rw [hrun.1]
    exact length_lastN_le _ _
  · rw [hrun.2.1]
    exact length_lastN_le _ _
  · rw [hrun.2.2]
    exact length_lastN_le _ _

/-- C2, witness: the bucket/history shape at a concrete three-call run. -/
theorem bucket_bounds_and_fifo_witness :
    (∀ i ∈ threeInputs, validInput i = true) ∧
      ((runUpdates (initialMemory (85/100) (3/10)) threeInputs).high_confidence_correct
          = lastN 100 (highEntriesOf (85/100) threeInputs) ∧
        (runUpdates (initialMemory (85/100) (3/10)) threeInputs).low_confidence_cases
          = lastN 50 (lowEntriesOf (85/100) threeInputs) ∧
        (runUpdates (initialMemory (85/100) (3/10)) threeInputs).confidence_history
          = lastN 100 (confsOf threeInputs) ∧
        (runUpdates (initialMemory (85/100) (3/10)) threeInputs).high_confidence_correct.length
          ≤ 100 ∧
        (runUpdates (initialMemory (85/100) (3/10)) threeInputs).low_confidence_cases.length
          ≤ 50 ∧
        (runUpdates (initialMemory (85/100) (3/10)) threeInputs).confidence_history.length
          ≤ 100) :=
  ⟨by with_unfolding_all decide,
   bucket_bounds_and_fifo (85/100) (3/10) threeInputs (by with_unfolding_all decide)⟩

/-- C3: after any sequence of completed updates from a fresh engine, once
`total_evaluations ≥ 10` the drift score equals exactly
`low_confidence_cases / total_evaluations`, and while
`total_evaluations < 10` it is still the initial 0, never recomputed. -/
theorem drift_score_formula (ct dt : ℚ) (inputs : List UpdateInput)
    (h : ∀ i ∈ inputs, validInput i = true) :
    (10 ≤ (runUpdates (initialMemory ct dt) inputs).statistics.total_evaluations →
        (runUpdates (initialMemory ct dt) inputs).statistics.drift_score
          = ((runUpdates (initialMemory ct dt) inputs).statistics.low_confidence_cases : ℚ)
              / ((runUpdates (initialMemory ct dt) inputs).statistics.total_evaluations : ℚ)) ∧
      ((runUpdates (initialMemory ct dt) inputs).statistics.total_evaluations < 10 →
        (runUpdates (initialMemory ct dt) inputs).statistics.drift_score = 0) := by
  refine drift_run inputs (initialMemory ct dt) h ?_ ?_
  · intro hge
    have h0 : (initialMemory ct dt).statistics.total_evaluations = 0 := rfl
    omega
  · intro _
    rfl

/-- C3, witness: ten completed low-confidence calls reach the 10-sample
threshold, and the drift score then equals the computed ratio. -/
theorem drift_score_formula_witness :
    (∀ i ∈ tenLowInputs, validInput i = true) ∧
      10 ≤ (runUpdates (initialMemory (85/100) (3/10)) tenLowInputs).statistics.total_evaluations ∧
      (runUpdates (initialMemory (85/100) (3/10)) tenLowInputs).statistics.drift_score
        = ((runUpdates (initialMemory (85/100) (3/10)) tenLowInputs).statistics.low_confidence_cases : ℚ)
            / ((runUpdates (initialMemory (85/100) (3/10)) tenLowInputs).statistics.total_evaluations : ℚ) :=
  ⟨by with_unfolding_all decide,
   by with_unfolding_all decide,
   (drift_score_formula (85/100) (3/10) tenLowInputs (by with_unfolding_all decide)).1
     (by with_unfolding_all decide)⟩

/-- C4: for every stored category, `retrieve_context category n` returns a
list of at most `n` records, each taken from the most-recent-20 window of
that category's log, ordered by `(confidence, timestamp)` descending
(confidence the primary key, timestamp the tie-break). -/
theorem retrieve_context_ranked_window (m : RAG) (category : String) (n : ℕ)
    (log : List Dict) (hres : reservedKey category = false)
    (hcat : getCategory m category = some log) :
    ∃ res, retrieve_context m category n = .ok res ∧
      res.length ≤ n ∧
      (∀ x ∈ res, x ∈ lastN 20 log) ∧
      List.Pairwise rankGE res := by
  refine ⟨((lastN 20 log).insertionSort rankGE).take n, ?_, ?_, ?_, ?_⟩
  · simp only [retrieve_context, hres, Bool.false_eq_true, if_false, hcat]
  · rw [List.length_take]
    omega
  · intro x hx
    exact (List.mem_insertionSort rankGE).mp
      (List.Sublist.mem hx (List.take_sublist _ _))
  · exact List.Pairwise.sublist (List.take_sublist _ _)
      (List.sorted_insertionSort rankGE _)

/-- C4, witness: a stored category with three mixed-confidence records. -/
theorem retrieve_context_ranked_window_witness :
    reservedKey "box_condition" = false ∧
      getCategory retrState "box_condition" = some retrLog ∧
      ∃ res, retrieve_context retrState "box_condition" 2 = .ok res ∧
        res.length ≤ 2 ∧
        (∀ x ∈ res, x ∈ lastN 20 retrLog) ∧
        List.Pairwise rankGE res :=
  ⟨by decide, by with_unfolding_all decide,
   retrieve_context_ranked_window retrState "box_condition" 2 retrLog
     (by decide) (by with_unfolding_all decide)⟩

/-- C5, counterexample: in `markedOnce`, the high-confidence bucket is
`[consumed, unconsumed]`, so the unconsumed-training ordering has exactly
one entry; per the claim, `mark_as_used_for_training 1` must consume the
first 1 entries of that ordering, leaving 0 unconsumed — but the code
re-marks the bucket's first entry and leaves the unconsumed entry
untouched (still 1 unconsumed). -/
theorem mark_consumed_skips_unconsumed_cex :
    markedOnce.high_confidence_correct.map HCEntry.used_for_training = [true, false] ∧
      (get_training_dataset markedOnce).length = 1 ∧
      (mark_as_used_for_training markedOnce 1).high_confidence_correct.map
          HCEntry.used_for_training = [true, false] ∧
      (get_training_dataset (mark_as_used_for_training markedOnce 1)).length = 1 := by
  with_unfolding_all decide

/-- C5 (amended): `mark_as_used_for_training n` sets `used_for_training`
on exactly the first `min n length` entries of the high-confidence bucket
in insertion order (consumed or not — not on the unconsumed-only
ordering), leaves every other field of every entry unchanged, is
idempotent, and clamps `n` beyond the bucket length instead of raising. -/
theorem mark_consumed_bucket_prefix (m : RAG) (n : ℕ) :
    (mark_as_used_for_training m n).high_confidence_correct.length
        = m.high_confidence_correct.length ∧
      (∀ i : ℕ, (mark_as_used_for_training m n).high_confidence_correct[i]?
        = (m.high_confidence_correct[i]?).map
            (fun e => if i < n then { e with used_for_training := true } else e)) ∧
      mark_as_used_for_training (mark_as_used_for_training m n) n
        = mark_as_used_for_training m n := by
  refine ⟨markUsed_length n _, fun i => markUsed_get? n _ i, ?_⟩
  simp only [mark_as_used_for_training]
  rw [markUsed_idem]

/-- C6: `export_for_finetuning` never changes the state (in particular no
`used_for_training` flag), and two successive exports with no
`mark_as_used_for_training` call between them write the same number of
training lines, namely one per unconsumed high-confidence record. -/
theorem export_nondestructive (m : RAG) :
    (export_for_finetuning m).2 = m ∧
      (export_for_finetuning m).2.high_confidence_correct.map HCEntry.used_for_training
        = m.high_confidence_correct.map HCEntry.used_for_training ∧
      (export_for_finetuning (export_for_finetuning m).2).1.length
        = (export_for_finetuning m).1.length ∧
      (export_for_finetuning m).1.length = (get_training_dataset m).length := by
  refine ⟨rfl, rfl, rfl, ?_⟩
  simp only [export_for_finetuning, List.length_map]

/-- C7, counterexample: an update with confidence 1.5 (outside [0,1])
returns normally and the record is stored in the category log — no
`InvalidRecordError` exists in the code. -/
theorem out_of_range_confidence_ingested_cex :
    isOk (update_memory defaultMemory oorInput.category oorInput.ts oorInput.outcome)
        = true ∧
      getCategory
          (stateOf (update_memory defaultMemory oorInput.category oorInput.ts
            oorInput.outcome)) "box_condition"
        = some [[("confidence", Val.num (3/2)), ("timestamp", Val.str "t0")]] := by
  with_unfolding_all decide

/-- C7 (amended): `update_memory` performs no validation of the
confidence: a record whose confidence lies outside [0,1] is ingested
without error, appended to its category log, and routed purely by the
threshold comparison. -/
theorem update_no_confidence_validation (m : RAG) (i : UpdateInput) (q : ℚ)
    (hres : reservedKey i.category = false)
    (hconf : lookupKey i.outcome "confidence" = some (.num q))
    (_hout : q < 0 ∨ 1 < q) :
    isOk (update_memory m i.category i.ts i.outcome) = true ∧
      getCategory (stateOf (update_memory m i.category i.ts i.outcome)) i.category
        = some ((getCategory m i.category).getD [] ++ [entryOf i]) := by
  have hconf' : lookupKey (entryOf i) "confidence" = some (.num q) := by
    rw [entryOf, lookupKey_setKey_ne _ _ (by decide)]
    exact hconf
  have hv : validInput i = true := by
    simp [validInput, hres, confOf, hconf']
  refine ⟨step_isOk m i hv, ?_⟩
  rw [getCategory, getCategory, step_categories m i hv, lookupCat_append_self]

/-- C7, witness: the amended statement at confidence 1.5 on a fresh
default engine. -/
theorem update_no_confidence_validation_witness :
    reservedKey oorInput.category = false ∧
      lookupKey oorInput.outcome "confidence" = some (.num (3/2)) ∧
      ((3:ℚ)/2 < 0 ∨ 1 < (3:ℚ)/2) ∧
      (isOk (update_memory defaultMemory oorInput.category oorInput.ts oorInput.outcome)
          = true ∧
        getCategory
            (stateOf (update_memory defaultMemory oorInput.category oorInput.ts
              oorInput.outcome)) oorInput.category
          = some ((getCategory defaultMemory oorInput.category).getD []
              ++ [entryOf oorInput])) :=
  ⟨by decide, by with_unfolding_all decide, by with_unfolding_all decide,
   update_no_confidence_validation defaultMemory oorInput (3/2) (by decide)
     (by with_unfolding_all decide) (by with_unfolding_all decide)⟩

/-- C8, counterexample: `"patterns"` is a string naming a category with no
stored records, yet `retrieve_context` on it raises a TypeError (slicing
the dict stored under the reserved key) instead of returning []. -/
theorem retrieve_reserved_key_raises_cex :
    retrieve_context defaultMemory "patterns" 5
        = .error "TypeError: unhashable type: slice" ∧
      getCategory defaultMemory "patterns" = none := by
  with_unfolding_all decide

/-- C8 (amended): for any category string that is not one of the three
reserved metadata keys (`statistics`, `patterns`, `reinforcement_data`)
and has no stored records, `retrieve_context` returns the empty list and
never fails; on a reserved key it raises a TypeError. -/
theorem retrieve_unknown_category_empty (m : RAG) (category : String) (n : ℕ)
    (hres : reservedKey category = false)
    (hcat : getCategory m category = none) :
    retrieve_context m category n = .ok [] := by
  simp only [retrieve_context, hres, Bool.false_eq_true, if_false, hcat]

/-- C8, witness: an unknown, non-reserved category on the default engine. -/
theorem retrieve_unknown_category_empty_witness :
    reservedKey "no_such_category" = false ∧
      getCategory defaultMemory "no_such_category" = none ∧
      retrieve_context defaultMemory "no_such_category" 3 = .ok [] :=
  ⟨by decide, by with_unfolding_all decide,
   retrieve_unknown_category_empty defaultMemory "no_such_category" 3
     (by decide) (by with_unfolding_all decide)⟩

/-- C9: under the default threshold 0.85, an outcome dict with no
confidence key is treated as confidence 0.5: the call completes, the
record goes to the low-confidence bucket, `low_confidence_cases` is
incremented, 0.5 is appended to the confidence history, and the retrieval
ranking key of the stored record is (0.5, its timestamp). -/
theorem missing_confidence_defaults_half (m : RAG) (i : UpdateInput)
    (hth : m.confidence_threshold = 85/100)
    (hres : reservedKey i.category = false)
    (hnoconf : lookupKey i.outcome "confidence" = none) :
    isOk (update_memory m i.category i.ts i.outcome) = true ∧
      (stateOf (update_memory m i.category i.ts i.outcome)).low_confidence_cases
        = lastN 50 (m.low_confidence_cases ++
            [{ prediction := entryOf i, timestamp := i.ts, needs_review := true }]) ∧
      (stateOf (update_memory m i.category i.ts i.outcome)).high_confidence_correct
        = m.high_confidence_correct ∧
      (stateOf (update_memory m i.category i.ts i.outcome)).statistics.low_confidence_cases
        = m.statistics.low_confidence_cases + 1 ∧
      (stateOf (update_memory m i.category i.ts i.outcome)).confidence_history
        = lastN 100 (m.confidence_history ++ [1/2]) ∧
      rankKey (entryOf i) = (1/2, i.ts) := by
  have hconf' : lookupKey (entryOf i) "confidence" = none := by
    rw [entryOf, lookupKey_setKey_ne _ _ (by decide)]
    exact hnoconf
  have hc : confOf (entryOf i) = some (1/2) := by
    simp only [confOf, hconf']
  have hv : validInput i = true := by
    simp [validInput, hres, hc]
  have hcv : confV i = 1/2 := by
    simp [confV, hc]
  have hq : ¬ m.confidence_threshold ≤ confV i := by
    rw [hth, hcv]
    norm_num
  refine ⟨step_isOk m i hv, ?_, step_high_neg m i hv hq, ?_, ?_, ?_⟩
  · exact step_low_neg m i hv hq
  · rw [step_low_cases m i hv, if_pos (by rw [hth, hcv]; norm_num)]
  · rw [step_history m i hv, hcv]
  · have hts : lookupKey (entryOf i) "timestamp" = some (.str i.ts) := by
      rw [entryOf]
      exact lookupKey_setKey_self _ _ _
    simp only [rankKey, rankConf, rankTs, hconf', hts]

/-- C9, witness: a concrete confidence-free outcome on the default
engine. -/
theorem missing_confidence_defaults_half_witness :
    defaultMemory.confidence_threshold = 85/100 ∧
      reservedKey noConfInput.category = false ∧
      lookupKey noConfInput.outcome "confidence" = none ∧
      (isOk (update_memory defaultMemory noConfInput.category noConfInput.ts
          noConfInput.outcome) = true ∧
        (stateOf (update_memory defaultMemory noConfInput.category noConfInput.ts
            noConfInput.outcome)).low_confidence_cases
          = lastN 50 (defaultMemory.low_confidence_cases ++
              [{ prediction := entryOf noConfInput, timestamp := noConfInput.ts,
                 needs_review := true }]) ∧
        (stateOf (update_memory defaultMemory noConfInput.category noConfInput.ts
            noConfInput.outcome)).high_confidence_correct
          = defaultMemory.high_confidence_correct ∧
        (stateOf (update_memory defaultMemory noConfInput.category noConfInput.ts
            noConfInput.outcome)).statistics.low_confidence_cases
          = defaultMemory.statistics.low_confidence_cases + 1 ∧
        (stateOf (update_memory defaultMemory noConfInput.category noConfInput.ts
            noConfInput.outcome)).confidence_history
          = lastN 100 (defaultMemory.confidence_history ++ [1/2]) ∧
        rankKey (entryOf noConfInput) = (1/2, noConfInput.ts)) :=
  ⟨rfl, by decide, by decide,
   missing_confidence_defaults_half defaultMemory noConfInput rfl
     (by decide) (by decide)⟩

/-- C10: a completed `update_memory category outcome` call mutates the
caller's outcome dict in place — the call returns with the caller's dict
equal to the original dict plus the engine-stamped timestamp key, the
record stored at the end of the category log is that very dict (the model
renders Python aliasing as value identity between the stored record and
the caller-visible dict), and every key other than `timestamp` is
unchanged. -/
theorem update_stamps_caller_dict (m : RAG) (i : UpdateInput)
    (hv : validInput i = true) :
    update_memory m i.category i.ts i.outcome
        = .ok (stateOf (update_memory m i.category i.ts i.outcome))
            (setKey i.outcome "timestamp" (.str i.ts)) ∧
      getCategory (stateOf (update_memory m i.category i.ts i.outcome)) i.category
        = some ((getCategory m i.category).getD []
            ++ [setKey i.outcome "timestamp" (.str i.ts)]) ∧
      lookupKey (setKey i.outcome "timestamp" (.str i.ts)) "timestamp"
        = some (.str i.ts) ∧
      ∀ k, k ≠ "timestamp" →
        lookupKey (setKey i.outcome "timestamp" (.str i.ts)) k
          = lookupKey i.outcome k := by
  refine ⟨?_, ?_, lookupKey_setKey_self _ _ _, fun k hk => lookupKey_setKey_ne _ _ hk⟩
  · rw [update_memory_valid_eq m i hv]
    rfl
  · rw [getCategory, getCategory, step_categories m i hv, lookupCat_append_self]
    rfl

/-- C10, witness: a concrete outcome dict with result, confidence and
reason keys. -/
theorem update_stamps_caller_dict_witness :
    validInput aliasInput = true ∧
      (update_memory defaultMemory aliasInput.category aliasInput.ts aliasInput.outcome
          = .ok (stateOf (update_memory defaultMemory aliasInput.category aliasInput.ts
              aliasInput.outcome))
            (setKey aliasInput.outcome "timestamp" (.str aliasInput.ts)) ∧
        getCategory (stateOf (update_memory defaultMemory aliasInput.category
            aliasInput.ts aliasInput.outcome)) aliasInput.category
          = some ((getCategory defaultMemory aliasInput.category).getD []
              ++ [setKey aliasInput.outcome "timestamp" (.str aliasInput.ts)]) ∧
        lookupKey (setKey aliasInput.outcome "timestamp" (.str aliasInput.ts))
            "timestamp" = some (.str aliasInput.ts) ∧
        ∀ k, k ≠ "timestamp" →
          lookupKey (setKey aliasInput.outcome "timestamp" (.str aliasInput.ts)) k
            = lookupKey aliasInput.outcome k) :=
  ⟨by with_unfolding_all decide,
   update_stamps_caller_dict defaultMemory aliasInput (by with_unfolding_all decide)⟩

end Raag
